import Mathlib

/-!
Verification of the replay-buffer / target-bootstrapped update loop of the
`vitay/notebooks-deeprl` course notebooks.

The executable code of the repository is the `ReplayMemory` class of
`12-DQN-pytorch.ipynb` (a `deque` with `maxlen`, `random.sample`, and a
zip-transpose into per-field tensors).  The remaining components (Bellman
target, epsilon-greedy action selection via `Tensor.argmax`, target-network
synchronization via `state_dict`/`load_state_dict`, backward discounted
returns) are student exercises whose intended behaviour is prescribed by the
notebooks' markdown guidance; those definitions are modelled from the spec.

Machine floats are modelled by `ℚ`; randomness is passed explicitly (a
function `rand : ℕ → ℕ` supplying the remaining draws of the PRNG, reduced
modulo the live pool size as `random.sample`'s `randbelow(n - i)` is).
-/

/-- A stored observation vector: either a plain numpy array or a torch
tensor, each carrying the underlying numeric data. -/
inductive ArrayLike
  | np (data : List ℚ)
  | tensor (data : List ℚ)
deriving DecidableEq

/-- `isinstance(x, torch.Tensor)` check used by `ReplayMemory.append`. -/
def ArrayLike.isTensor : ArrayLike → Bool
  | .np _ => false
  | .tensor _ => true

/-- `x.numpy(force=True)`: produces the numpy array holding the same data. -/
def ArrayLike.numpyForce : ArrayLike → ArrayLike
  | .np d => .np d
  | .tensor d => .np d

/-- Predicate: the value is a plain numpy array. -/
def ArrayLike.isNumpy : ArrayLike → Bool
  | .np _ => true
  | .tensor _ => false

/-- The `Transition` named tuple of `12-DQN-pytorch.ipynb`:
`('state', 'action', 'reward', 'next_state', 'done')`. -/
structure Transition where
  state : ArrayLike
  action : ℤ
  reward : ℚ
  next_state : ArrayLike
  done : Bool
deriving DecidableEq

/-- The `ReplayMemory` object: `self.memory = deque([], maxlen=capacity)`.
The list holds the stored elements oldest first. -/
structure ReplayMemory (α : Type) where
  capacity : ℕ
  memory : List α
deriving DecidableEq

/-- `ReplayMemory(capacity)`: the fresh buffer with an empty deque. -/
def ReplayMemory.mk0 (α : Type) (capacity : ℕ) : ReplayMemory α :=
  ⟨capacity, []⟩

/-- `deque.append` under `maxlen`: the new element is appended on the right
and, if the deque exceeds its capacity, elements are discarded from the
left. -/
def ReplayMemory.push {α : Type} (rm : ReplayMemory α) (t : α) : ReplayMemory α :=
  let m := rm.memory ++ [t]
  ⟨rm.capacity, m.drop (m.length - rm.capacity)⟩

/-- `ReplayMemory.append(state, action, reward, next_state, done)`:
converts torch tensors to numpy arrays via `numpy(force=True)` and appends
the transition to the deque. -/
def ReplayMemory.append (rm : ReplayMemory Transition) (state : ArrayLike)
    (action : ℤ) (reward : ℚ) (next_state : ArrayLike) (dn : Bool) :
    ReplayMemory Transition :=
  let state := if state.isTensor then state.numpyForce else state
  let next_state := if next_state.isTensor then next_state.numpyForce else next_state
  rm.push ⟨state, action, reward, next_state, dn⟩

/-- The argument tuple of one `append` call. -/
structure AppendInput where
  state : ArrayLike
  action : ℤ
  reward : ℚ
  next_state : ArrayLike
  done : Bool
deriving DecidableEq

/-- The transition that `append` stores for a given argument tuple. -/
def storeOf (inp : AppendInput) : Transition :=
  ⟨if inp.state.isTensor then inp.state.numpyForce else inp.state,
   inp.action, inp.reward,
   if inp.next_state.isTensor then inp.next_state.numpyForce else inp.next_state,
   inp.done⟩

/-- A sequence of `append` calls, left to right. -/
def appendAll (rm : ReplayMemory Transition) (inputs : List AppendInput) :
    ReplayMemory Transition :=
  inputs.foldl
    (fun r inp => r.append inp.state inp.action inp.reward inp.next_state inp.done) rm

/-- The error raised by `random.sample` (named `InsufficientDataError` in the
design spec) when the requested batch size exceeds the stored count. -/
inductive InsufficientDataError
  | sampleLargerThanPopulation
deriving DecidableEq

/-- `random.sample(pool, k)`: `k` elements chosen without replacement.
At each step an index below the live pool size is drawn (`rand` reduced
modulo the pool size stands for `randbelow`), the element at that index is
emitted, and it is removed from the pool. -/
def draw {α : Type} (rand : ℕ → ℕ) : ℕ → List α → List α
  | 0, _ => []
  | _ + 1, [] => []
  | k + 1, x :: xs =>
    let pool := x :: xs
    let j : ℕ := rand k % pool.length
    pool.get ⟨j, Nat.mod_lt _ (Nat.succ_pos xs.length)⟩ ::
      draw rand k (pool.eraseIdx j)

/-- The minibatch structure produced by `sample`: the five per-field
tensors obtained from `Transition(*zip(*transitions))`. -/
structure Batch where
  states : List ArrayLike
  actions : List ℤ
  rewards : List ℚ
  next_states : List ArrayLike
  dones : List Bool
deriving DecidableEq

/-- `Transition(*zip(*transitions))` followed by the `torch.tensor` casts:
the list of transitions transposed into five field-aligned columns. -/
def transpose (transitions : List Transition) : Batch :=
  ⟨transitions.map (·.state), transitions.map (·.action),
   transitions.map (·.reward), transitions.map (·.next_state),
   transitions.map (·.done)⟩

/-- `ReplayMemory.sample(batch_size)`: draws `batch_size` transitions via
`random.sample(self.memory, batch_size)` (which raises when the request
exceeds the stored count) and returns the transposed minibatch together
with the unchanged buffer. -/
def ReplayMemory.sample (rm : ReplayMemory Transition) (batch_size : ℕ)
    (rand : ℕ → ℕ) :
    Except InsufficientDataError (Batch × ReplayMemory Transition) :=
  if rm.memory.length < batch_size then
    .error .sampleLargerThanPopulation
  else
    .ok (transpose (draw rand batch_size rm.memory), rm)

/-- `len(self.memory)`. -/
def ReplayMemory.size {α : Type} (rm : ReplayMemory α) : ℕ :=
  rm.memory.length

/-- Modelled from the spec: the Bellman target of the DQN `update()` cell
(an unfilled exercise cell); the notebook's guidance instructs computing
`reward + gamma * next_best` with the next-state value zeroed on terminal
transitions (`Q[batch.dones] = 0.0`). -/
def bellmanTarget (gamma reward next_best : ℚ) (dn : Bool) : ℚ :=
  reward + gamma * (if dn then 0 else next_best)

/-- The maximal Q-value of a score vector (`Tensor.max` over a nonempty
tensor; `0` on the empty vector, which never arises). -/
def maxQ : List ℚ → ℚ
  | [] => 0
  | x :: xs => xs.foldl max x

/-- `Tensor.argmax` on the vector of per-action scores: the index of the
first occurrence of the maximal value (torch's documented behaviour when
several entries are maximal). -/
def tensorArgmax (l : List ℚ) : ℕ :=
  l.indexOf (maxQ l)

/-- Modelled from the spec: the pair of networks of the DQN agent; a
parameter snapshot (`state_dict`) is a list of numbers, and the agent holds
the online and the target parameters. -/
structure DQNNets where
  onlineParams : List ℚ
  targetParams : List ℚ
deriving DecidableEq

/-- Modelled from the spec:
`target_net.load_state_dict(value_net.state_dict())` — the full-copy
synchronization of the target network. -/
def syncTarget (nets : DQNNets) : DQNNets :=
  { nets with targetParams := nets.onlineParams }

/-- The online parameters after `n` gradient steps, each step being an
arbitrary update `grad` of the current parameters. -/
def onlineAfter (grad : ℕ → List ℚ → List ℚ) (p0 : List ℚ) : ℕ → List ℚ
  | 0 => p0
  | n + 1 => grad n (onlineAfter grad p0 n)

/-- Modelled from the spec: the DQN training loop's network state after `n`
steps.  Both networks start from the same parameters; each step updates the
online network by a gradient step and, every `Ttarget` steps, overwrites
the target parameters with an exact copy of the online parameters. -/
def dqnRun (grad : ℕ → List ℚ → List ℚ) (Ttarget : ℕ) (p0 : List ℚ) :
    ℕ → DQNNets
  | 0 => ⟨p0, p0⟩
  | n + 1 =>
    let st := dqnRun grad Ttarget p0 n
    let o := grad n st.onlineParams
    ⟨o, if (n + 1) % Ttarget = 0 then o else st.targetParams⟩

/-- Modelled from the spec: the backward discounted-return computation of
`8-MonteCarlo.ipynb` (the exercise cell is unfilled; the notebook's
markdown prescribes iterating backward with `R_t = r_{t+1} + gamma * R_{t+1}`
and a terminal return of `0`). -/
def returnsBackward (gamma : ℚ) : List ℚ → List ℚ
  | [] => []
  | r :: rs =>
    (r + gamma * (returnsBackward gamma rs).headD 0) :: returnsBackward gamma rs

/-- A concrete two-element buffer used to instantiate the sampling
theorems. -/
def rmW : ReplayMemory Transition :=
  ⟨3, [⟨.np [0], 0, 0, .np [1], false⟩, ⟨.np [1], 1, 1, .np [2], true⟩]⟩

/-- A concrete random stream used to instantiate the sampling theorems. -/
def randW : ℕ → ℕ := fun _ => 0

theorem suffix_push_step {α : Type} (N : ℕ) (l : List α) (t : α) :
    ((l.drop (l.length - N) ++ [t]).drop
        ((l.drop (l.length - N) ++ [t]).length - N))
      = (l ++ [t]).drop ((l ++ [t]).length - N) := by
  have hd : l.length - N ≤ l.length := Nat.sub_le _ _
  have h1 : (l ++ [t]).drop (l.length - N) = l.drop (l.length - N) ++ [t] := by
    rw [List.drop_append_eq_append_drop, Nat.sub_eq_zero_of_le hd, List.drop_zero]
  rw [← h1, List.drop_drop]
  congr 1
  simp only [List.length_append, List.length_drop, List.length_singleton]
  omega

theorem pushAll_capacity {α : Type} (N : ℕ) (ts : List α) :
    (ts.foldl ReplayMemory.push (ReplayMemory.mk0 α N)).capacity = N := by
  induction ts using List.reverseRecOn with
  | nil => rfl
  | append_singleton ts t ih =>
    rw [List.foldl_append]
    simp [ReplayMemory.push, ih]

theorem pushAll_memory {α : Type} (N : ℕ) (ts : List α) :
    (ts.foldl ReplayMemory.push (ReplayMemory.mk0 α N)).memory
      = ts.drop (ts.length - N) := by
  induction ts using List.reverseRecOn with
  | nil => simp [ReplayMemory.mk0]
  | append_singleton ts t ih =>
    rw [List.foldl_append]
    simp only [List.foldl_cons, List.foldl_nil]
    rw [ReplayMemory.push]
    simp only [ih, pushAll_capacity]
    exact suffix_push_step N ts t

theorem appendAll_eq_pushAll (rm : ReplayMemory Transition)
    (inputs : List AppendInput) :
    appendAll rm inputs = (inputs.map storeOf).foldl ReplayMemory.push rm := by
  rw [appendAll, List.foldl_map]
  rfl

/-- C1: for every capacity `N ≥ 1` and every sequence of `append` calls,
each append succeeds (it is a total function), after the `i`-th append the
buffer size is `min i N`, and the contents are exactly the most recently
stored `min i N` transitions in insertion order (FIFO eviction). -/
theorem replay_append_fifo (N : ℕ) (hN : 1 ≤ N) (inputs : List AppendInput)
    (i : ℕ) (hi : i ≤ inputs.length) :
    (appendAll (ReplayMemory.mk0 Transition N) (inputs.take i)).memory.length
        = min i N ∧
    (appendAll (ReplayMemory.mk0 Transition N) (inputs.take i)).memory
        = ((inputs.take i).map storeOf).drop (i - N) := by
  rw [appendAll_eq_pushAll, pushAll_memory]
  have hlen : ((inputs.take i).map storeOf).length = i := by
    simp [List.length_take, Nat.min_eq_left hi]
  constructor
  · rw [List.length_drop, hlen]; omega
  · rw [hlen]

theorem convert_eq_numpyForce (x : ArrayLike) :
    (if x.isTensor then x.numpyForce else x) = x.numpyForce := by
  cases x <;> rfl

theorem numpyForce_isNumpy (x : ArrayLike) : x.numpyForce.isNumpy = true := by
  cases x <;> rfl

/-- C8: every transition ever present in the buffer (after any prefix of the
append calls) has numpy-array `state` and `next_state` fields — tensor
inputs having been converted by `numpy(force=True)` — while `action`,
`reward` and `done` are stored exactly as passed. -/
theorem append_stores_numpy (N : ℕ) (inputs : List AppendInput) (i : ℕ)
    (tr : Transition)
    (htr : tr ∈ (appendAll (ReplayMemory.mk0 Transition N) (inputs.take i)).memory) :
    ∃ inp ∈ inputs.take i, tr = storeOf inp ∧ tr.state.isNumpy = true ∧
      tr.next_state.isNumpy = true ∧ tr.state = inp.state.numpyForce ∧
      tr.next_state = inp.next_state.numpyForce ∧ tr.action = inp.action ∧
      tr.reward = inp.reward ∧ tr.done = inp.done := by
  rw [appendAll_eq_pushAll, pushAll_memory] at htr
  have hmem := List.mem_of_mem_drop htr
  obtain ⟨inp, hin, heq⟩ := List.mem_map.mp hmem
  refine ⟨inp, hin, heq.symm, ?_, ?_, ?_, ?_, ?_, ?_, ?_⟩ <;>
    simp [← heq, storeOf, convert_eq_numpyForce, numpyForce_isNumpy]

/-- Witness for C1: capacity 3, appending A, B, C, D leaves exactly the
stored forms of B, C, D, with A evicted. -/
theorem replay_append_fifo_witness :
    (1 ≤ 3 ∧ (4 : ℕ) ≤ ([⟨.np [0], 0, 0, .np [1], false⟩,
        ⟨.np [1], 1, 1, .np [2], false⟩,
        ⟨.np [2], 0, 1, .np [3], false⟩,
        ⟨.np [3], 1, 0, .np [4], true⟩] : List AppendInput).length) ∧
    ((appendAll (ReplayMemory.mk0 Transition 3)
        (([⟨.np [0], 0, 0, .np [1], false⟩,
          ⟨.np [1], 1, 1, .np [2], false⟩,
          ⟨.np [2], 0, 1, .np [3], false⟩,
          ⟨.np [3], 1, 0, .np [4], true⟩] : List AppendInput).take 4)).memory.length
        = min 4 3 ∧
      (appendAll (ReplayMemory.mk0 Transition 3)
        (([⟨.np [0], 0, 0, .np [1], false⟩,
          ⟨.np [1], 1, 1, .np [2], false⟩,
          ⟨.np [2], 0, 1, .np [3], false⟩,
          ⟨.np [3], 1, 0, .np [4], true⟩] : List AppendInput).take 4)).memory
        = ((([⟨.np [0], 0, 0, .np [1], false⟩,
          ⟨.np [1], 1, 1, .np [2], false⟩,
          ⟨.np [2], 0, 1, .np [3], false⟩,
          ⟨.np [3], 1, 0, .np [4], true⟩] : List AppendInput).take 4).map storeOf).drop
            (4 - 3)) :=
  ⟨⟨by decide, by decide⟩,
    replay_append_fifo 3 (by decide) _ 4 (by decide)⟩

/-- Witness for C8: a tensor state input is stored as the numpy array with
the same data; the other fields are stored as passed. -/
theorem append_stores_numpy_witness :
    ((⟨.np [5], 2, 3, .np [6], true⟩ : Transition) ∈
      (appendAll (ReplayMemory.mk0 Transition 10)
        (([⟨.tensor [5], 2, 3, .np [6], true⟩] : List AppendInput).take 1)).memory) ∧
    ∃ inp ∈ ([⟨.tensor [5], 2, 3, .np [6], true⟩] : List AppendInput).take 1,
      (⟨.np [5], 2, 3, .np [6], true⟩ : Transition) = storeOf inp ∧
      (ArrayLike.np [5]).isNumpy = true ∧ (ArrayLike.np [6]).isNumpy = true ∧
      ArrayLike.np [5] = inp.state.numpyForce ∧
      ArrayLike.np [6] = inp.next_state.numpyForce ∧
      (2 : ℤ) = inp.action ∧ (3 : ℚ) = inp.reward ∧ true = inp.done :=
  ⟨by decide, append_stores_numpy 10 _ 1 _ (by decide)⟩

theorem draw_length {α : Type} (rand : ℕ → ℕ) :
    ∀ (k : ℕ) (l : List α), k ≤ l.length → (draw rand k l).length = k := by
  intro k
  induction k with
  | zero => intro l _; rfl
  | succ k ih =>
    intro l hk
    match l with
    | [] => simp at hk
    | x :: xs =>
      have hj : rand k % (x :: xs).length < (x :: xs).length :=
        Nat.mod_lt _ (Nat.succ_pos xs.length)
      have hlen := List.length_eraseIdx_add_one hj
      have hrec : (draw rand k
          ((x :: xs).eraseIdx (rand k % (xs.length + 1)))).length = k := by
        apply ih
        simp only [List.length_cons] at hk hlen ⊢
        omega
      rw [draw]
      simp only [List.length_cons]
      rw [hrec]

theorem perm_get_cons_eraseIdx {α : Type} :
    ∀ (l : List α) (i : ℕ) (h : i < l.length),
      List.Perm l (l.get ⟨i, h⟩ :: l.eraseIdx i) := by
  intro l
  induction l with
  | nil => intro i h; simp at h
  | cons x xs ih =>
    intro i h
    match i with
    | 0 => exact List.Perm.refl _
    | i + 1 =>
      have hi : i < xs.length := by simpa using h
      have step := List.Perm.cons x (ih i hi)
      refine List.Perm.trans step ?_
      exact List.Perm.swap _ _ _

theorem draw_subperm {α : Type} (rand : ℕ → ℕ) :
    ∀ (k : ℕ) (l : List α), List.Subperm (draw rand k l) l := by
  intro k
  induction k with
  | zero => intro l; exact List.nil_subperm
  | succ k ih =>
    intro l
    match l with
    | [] => exact List.nil_subperm
    | x :: xs =>
      rw [draw]
      have hj : rand k % (x :: xs).length < (x :: xs).length :=
        Nat.mod_lt _ (Nat.succ_pos xs.length)
      have hperm := perm_get_cons_eraseIdx (x :: xs) (rand k % (x :: xs).length) hj
      refine List.Subperm.trans ?_ (List.Perm.subperm (List.Perm.symm hperm))
      exact (List.subperm_cons _).mpr (ih _)

/-- C3: `sample(k)` on a buffer holding fewer than `k` transitions raises
`InsufficientDataError` (the `ValueError` of `random.sample`) and never
partially succeeds: no transitions are returned and, `sample` being pure on
the buffer, the contents are unchanged. -/
theorem sample_insufficient_data (rm : ReplayMemory Transition) (k : ℕ)
    (rand : ℕ → ℕ) (h : rm.memory.length < k) :
    rm.sample k rand = Except.error InsufficientDataError.sampleLargerThanPopulation := by
  rw [ReplayMemory.sample, if_pos h]

/-- Witness for C3: sampling one transition from an empty buffer fails. -/
theorem sample_insufficient_data_witness :
    (ReplayMemory.mk0 Transition 5).memory.length < 1 ∧
    (ReplayMemory.mk0 Transition 5).sample 1 randW
      = Except.error InsufficientDataError.sampleLargerThanPopulation :=
  ⟨by decide, sample_insufficient_data _ 1 randW (by decide)⟩

/-- C4: for `k ≤ m`, `sample(k)` returns exactly `k` stored entries drawn
without replacement (the returned list is a sub-permutation of the buffer,
so no stored slot is returned twice), and the buffer returned alongside is
the very same one — size, contents and order unchanged. -/
theorem sample_without_replacement (rm : ReplayMemory Transition) (k : ℕ)
    (rand : ℕ → ℕ) (h : k ≤ rm.memory.length) :
    rm.sample k rand = Except.ok (transpose (draw rand k rm.memory), rm) ∧
    (draw rand k rm.memory).length = k ∧
    List.Subperm (draw rand k rm.memory) rm.memory := by
  refine ⟨?_, draw_length rand k _ h, draw_subperm rand k _⟩
  rw [ReplayMemory.sample, if_neg (not_lt.mpr h)]

/-- Witness for C4 on a concrete two-element buffer. -/
theorem sample_without_replacement_witness :
    1 ≤ rmW.memory.length ∧
    (rmW.sample 1 randW = Except.ok (transpose (draw randW 1 rmW.memory), rmW) ∧
      (draw randW 1 rmW.memory).length = 1 ∧
      List.Subperm (draw randW 1 rmW.memory) rmW.memory) :=
  ⟨by decide, sample_without_replacement rmW 1 randW (by decide)⟩

/-- C9: at the precondition boundary, `sample(m)` on a buffer of size
exactly `m` succeeds and the sampled list is a permutation of the entire
buffer contents: every stored transition is returned exactly once. -/
theorem sample_full_buffer_perm (rm : ReplayMemory Transition) (rand : ℕ → ℕ) :
    rm.sample rm.memory.length rand
      = Except.ok (transpose (draw rand rm.memory.length rm.memory), rm) ∧
    List.Perm (draw rand rm.memory.length rm.memory) rm.memory := by
  constructor
  · rw [ReplayMemory.sample, if_neg (lt_irrefl _)]
  · refine List.Subperm.perm_of_length_le (draw_subperm rand _ _) ?_
    rw [draw_length rand _ _ le_rfl]

/-- C10: the batch returned by `sample(k)` keeps its field columns aligned:
for every `j < k` the tuple formed from the five columns at position `j` is
exactly one single stored transition of the buffer. -/
theorem sample_batch_alignment (rm : ReplayMemory Transition) (k : ℕ)
    (rand : ℕ → ℕ) (h : k ≤ rm.memory.length) (j : ℕ) (hj : j < k) :
    ∃ tr ∈ rm.memory,
      (transpose (draw rand k rm.memory)).states[j]? = some tr.state ∧
      (transpose (draw rand k rm.memory)).actions[j]? = some tr.action ∧
      (transpose (draw rand k rm.memory)).rewards[j]? = some tr.reward ∧
      (transpose (draw rand k rm.memory)).next_states[j]? = some tr.next_state ∧
      (transpose (draw rand k rm.memory)).dones[j]? = some tr.done := by
  have hlen := draw_length rand k rm.memory h
  have hj2 : j < (draw rand k rm.memory).length := by omega
  refine ⟨(draw rand k rm.memory).get ⟨j, hj2⟩, ?_, ?_, ?_, ?_, ?_, ?_⟩
  · exact (draw_subperm rand k _).subset (List.get_mem _ _ _)
  all_goals
    simp [transpose, List.getElem?_map, List.getElem?_eq_getElem hj2]

/-- Witness for C10 on a concrete two-element buffer. -/
theorem sample_batch_alignment_witness :
    (1 ≤ rmW.memory.length ∧ 0 < 1) ∧
    ∃ tr ∈ rmW.memory,
      (transpose (draw randW 1 rmW.memory)).states[0]? = some tr.state ∧
      (transpose (draw randW 1 rmW.memory)).actions[0]? = some tr.action ∧
      (transpose (draw randW 1 rmW.memory)).rewards[0]? = some tr.reward ∧
      (transpose (draw randW 1 rmW.memory)).next_states[0]? = some tr.next_state ∧
      (transpose (draw randW 1 rmW.memory)).dones[0]? = some tr.done :=
  ⟨⟨by decide, by decide⟩, sample_batch_alignment rmW 1 randW (by decide) 0 (by decide)⟩

/-- C2: the Bellman target equals `reward` when `done` is true (whatever
`gamma` and the target estimator output), equals `reward` when `done` is
false and `gamma = 0`, and equals `reward + gamma * next_best` otherwise —
in particular `reward + next_best` when `gamma = 1`. -/
theorem bellman_target_cases (gamma reward next_best : ℚ) :
    bellmanTarget gamma reward next_best true = reward ∧
    (gamma = 0 → bellmanTarget gamma reward next_best false = reward) ∧
    bellmanTarget gamma reward next_best false = reward + gamma * next_best ∧
    (gamma = 1 → bellmanTarget gamma reward next_best false = reward + next_best) := by
  refine ⟨by simp [bellmanTarget], fun h => by simp [bellmanTarget, h],
    by simp [bellmanTarget], fun h => by simp [bellmanTarget, h]⟩

/-- Witness for C2 at concrete values `gamma = 1/2`, `reward = 2`,
`next_best = 7`. -/
theorem bellman_target_cases_witness :
    bellmanTarget (1/2) 2 7 true = 2 ∧
    bellmanTarget 0 2 7 false = 2 ∧
    bellmanTarget (1/2) 2 7 false = 2 + (1/2) * 7 ∧
    bellmanTarget 1 2 7 false = 2 + 7 :=
  ⟨(bellman_target_cases (1/2) 2 7).1,
   (bellman_target_cases 0 2 7).2.1 rfl,
   (bellman_target_cases (1/2) 2 7).2.2.1,
   (bellman_target_cases 1 2 7).2.2.2 rfl⟩

theorem le_foldl_max (x : ℚ) (xs : List ℚ) : x ≤ xs.foldl max x := by
  induction xs generalizing x with
  | nil => exact le_refl x
  | cons y ys ih =>
    exact le_trans (le_max_left x y) (ih (max x y))

theorem mem_le_foldl_max (a x : ℚ) (xs : List ℚ) (ha : a ∈ xs) :
    a ≤ xs.foldl max x := by
  induction xs generalizing x with
  | nil => simp at ha
  | cons y ys ih =>
    rw [List.foldl_cons]
    rcases List.mem_cons.mp ha with h | h
    · subst h
      exact le_trans (le_max_right x a) (le_foldl_max _ _)
    · exact ih (max x y) h

theorem foldl_max_mem (x : ℚ) (xs : List ℚ) :
    xs.foldl max x = x ∨ xs.foldl max x ∈ xs := by
  induction xs generalizing x with
  | nil => exact Or.inl rfl
  | cons y ys ih =>
    rw [List.foldl_cons]
    rcases ih (max x y) with h | h
    · rcases max_choice x y with hx | hy
      · exact Or.inl (h.trans hx)
      · refine Or.inr ?_
        rw [h, hy]
        exact List.mem_cons_self _ _
    · exact Or.inr (List.mem_cons_of_mem _ h)

theorem maxQ_mem (l : List ℚ) (h : l ≠ []) : maxQ l ∈ l := by
  match l with
  | x :: xs =>
    rw [maxQ]
    rcases foldl_max_mem x xs with h1 | h1
    · rw [h1]
      exact List.mem_cons_self _ _
    · exact List.mem_cons_of_mem _ h1

theorem le_maxQ (l : List ℚ) (a : ℚ) (ha : a ∈ l) : a ≤ maxQ l := by
  match l with
  | x :: xs =>
    rw [maxQ]
    rcases List.mem_cons.mp ha with h | h
    · exact h ▸ le_foldl_max x xs
    · exact mem_le_foldl_max a x xs h

/-- C5 (amended): the exploitation branch of epsilon-greedy selection is
`Tensor.argmax`, which deterministically returns the first (lowest-index)
maximal action; the returned action's score always equals the maximum score
for that state. -/
theorem greedy_action_attains_max (scores : List ℚ) (h : scores ≠ []) :
    ∃ hlt : tensorArgmax scores < scores.length,
      scores.get ⟨tensorArgmax scores, hlt⟩ = maxQ scores ∧
      ∀ a ∈ scores, a ≤ scores.get ⟨tensorArgmax scores, hlt⟩ := by
  have hm : maxQ scores ∈ scores := maxQ_mem scores h
  have hlt : tensorArgmax scores < scores.length := by
    rw [tensorArgmax]; exact List.indexOf_lt_length.mpr hm
  have hget : scores.get ⟨tensorArgmax scores, hlt⟩ = maxQ scores :=
    List.indexOf_get _
  exact ⟨hlt, hget, fun a ha => hget ▸ le_maxQ scores a ha⟩

/-- Witness for C5 (amended) on the score vector `[1, 2]`. -/
theorem greedy_action_attains_max_witness :
    ([(1 : ℚ), 2] ≠ []) ∧
    ∃ hlt : tensorArgmax [(1 : ℚ), 2] < ([(1 : ℚ), 2]).length,
      ([(1 : ℚ), 2]).get ⟨tensorArgmax [(1 : ℚ), 2], hlt⟩ = maxQ [(1 : ℚ), 2] ∧
      ∀ a ∈ [(1 : ℚ), 2], a ≤ ([(1 : ℚ), 2]).get ⟨tensorArgmax [(1 : ℚ), 2], hlt⟩ :=
  ⟨by decide, greedy_action_attains_max [(1 : ℚ), 2] (by decide)⟩

/-- Counterexample for C5 as stated: on the tied score vector `[1, 1]`,
action 1 is maximal, yet the greedy choice is the constant index 0 — the
selection is a deterministic function that always returns the first tied
maximal action, so the tied action 1 is never returned (not chosen
uniformly at random). -/
theorem greedy_tie_counterexample :
    tensorArgmax [(1 : ℚ), 1] = 0 ∧
    ([(1 : ℚ), 1]).get ⟨1, by decide⟩ = maxQ [(1 : ℚ), 1] := by
  constructor
  · decide
  · decide

theorem dqnRun_online (grad : ℕ → List ℚ → List ℚ) (Tt : ℕ) (p0 : List ℚ) :
    ∀ n, (dqnRun grad Tt p0 n).onlineParams = onlineAfter grad p0 n := by
  intro n
  induction n with
  | zero => rfl
  | succ n ih => simp [dqnRun, onlineAfter, ih]

theorem dqnRun_target_snapshot (grad : ℕ → List ℚ → List ℚ) (Tt : ℕ)
    (p0 : List ℚ) : ∀ n, ∃ m ≤ n,
      (dqnRun grad Tt p0 n).targetParams = onlineAfter grad p0 m := by
  intro n
  induction n with
  | zero => exact ⟨0, le_refl 0, rfl⟩
  | succ n ih =>
    by_cases h : (n + 1) % Tt = 0
    · refine ⟨n + 1, le_refl _, ?_⟩
      simp [dqnRun, h, onlineAfter, dqnRun_online]
    · obtain ⟨m, hm, heq⟩ := ih
      refine ⟨m, Nat.le_succ_of_le hm, ?_⟩
      simp [dqnRun, h, heq]

/-- C6: immediately after a full-copy synchronization (`syncTarget`, and at
every sync step of the training loop) the target estimator computes the
same output as the online estimator on every probe state; and at every
reachable point of the loop the target parameters equal some past snapshot
of the online parameters (never an interpolation or partial copy). -/
theorem target_network_snapshot (grad : ℕ → List ℚ → List ℚ) (Tt : ℕ)
    (p0 : List ℚ) (n : ℕ) :
    (∀ (nets : DQNNets) (Q : List ℚ → List ℚ → ℚ) (s : List ℚ),
        Q (syncTarget nets).targetParams s = Q nets.onlineParams s) ∧
    ((n + 1) % Tt = 0 → ∀ (Q : List ℚ → List ℚ → ℚ) (s : List ℚ),
        Q (dqnRun grad Tt p0 (n + 1)).targetParams s
          = Q (dqnRun grad Tt p0 (n + 1)).onlineParams s) ∧
    ∃ m ≤ n, (dqnRun grad Tt p0 n).targetParams = onlineAfter grad p0 m := by
  refine ⟨fun nets Q s => rfl, fun h Q s => ?_, dqnRun_target_snapshot grad Tt p0 n⟩
  simp [dqnRun, h]

/-- Witness for C6 with a one-step loop syncing every step. -/
theorem target_network_snapshot_witness :
    ((syncTarget ⟨[2], [3]⟩).targetParams.headD 0
        = (⟨[2], [3]⟩ : DQNNets).onlineParams.headD 0) ∧
    ((0 + 1) % 1 = 0) ∧
    ((dqnRun (fun _ p => p) 1 [1] (0 + 1)).targetParams.headD 0
        = (dqnRun (fun _ p => p) 1 [1] (0 + 1)).onlineParams.headD 0) ∧
    ∃ m ≤ 0, (dqnRun (fun _ p => p) 1 [1] 0).targetParams
        = onlineAfter (fun _ p => p) [1] m :=
  ⟨(target_network_snapshot (fun _ p => p) 1 [1] 0).1 ⟨[2], [3]⟩
      (fun p _ => p.headD 0) [],
   by decide,
   (target_network_snapshot (fun _ p => p) 1 [1] 0).2.1 (by decide)
      (fun p _ => p.headD 0) [],
   (target_network_snapshot (fun _ p => p) 1 [1] 0).2.2⟩

/-- C7: the backward discounted-return computation satisfies
`R_t = r_{t+1} + gamma * R_{t+1}` with the terminal return equal to 0; for
`gamma = 0.9` and rewards `[1, 1, 1]` the returns are `[2.71, 1.9, 1.0]`. -/
theorem mc_returns_recurrence (gamma : ℚ) (rs : List ℚ) (t : ℕ)
    (ht : t < rs.length) :
    ((returnsBackward gamma rs).getD t 0
        = rs.getD t 0 + gamma * (returnsBackward gamma rs).getD (t + 1) 0) ∧
    returnsBackward (9/10) [1, 1, 1] = [271/100, 19/10, 1] := by
  constructor
  · induction rs generalizing t with
    | nil => simp at ht
    | cons r tl ih =>
      match t with
      | 0 =>
        rw [returnsBackward]
        simp only [List.getD_cons_zero, List.getD_cons_succ]
        cases returnsBackward gamma tl <;> simp [List.getD]
      | t + 1 =>
        rw [returnsBackward]
        simp only [List.getD_cons_succ]
        exact ih t (by simpa using ht)
  · norm_num [returnsBackward]

/-- Witness for C7 at `gamma = 9/10`, rewards `[1, 1, 1]`, step 0. -/
theorem mc_returns_recurrence_witness :
    ((0 : ℕ) < ([1, 1, 1] : List ℚ).length) ∧
    ((returnsBackward (9/10) [1, 1, 1]).getD 0 0
        = ([1, 1, 1] : List ℚ).getD 0 0
          + (9/10) * (returnsBackward (9/10) [1, 1, 1]).getD 1 0) ∧
    returnsBackward (9/10) [1, 1, 1] = [271/100, 19/10, 1] :=
  ⟨by decide, mc_returns_recurrence (9/10) [1, 1, 1] 0 (by decide)⟩
